import Mathlib

/-!
Verification of the session and buffering engine of a multi-speaker
voice-call transcription system (`core/transcription_logic.py`).

Python dictionaries preserve insertion order, and the code iterates over
them (`for uid, texts in self.user_transcripts.items()`,
`for user_id in list(session.audio_buffers.keys())`), so they are modelled
as insertion-ordered association lists over `Nat` keys:
`d[k] = v` updates the first entry in place when the key exists and appends
a fresh entry at the end otherwise; `del d[k]` removes the entry.

Byte strings (`bytes` / `bytearray`) are modelled as `List Nat`.
The two external collaborators reached from `_flush_buffer`
(`audio_utils.convert_pcm_to_wav` and `AudioToTextRecorder.transcribe_file`)
are modelled by an `Option String` outcome parameter: `some raw` means both
succeed and the engine returns the raw text `raw` (which the code then
strips), `none` means either step raises an exception.
-/

/-- Lookup in an insertion-ordered association list (Python `d.get(k)` /
`k in d`). -/
def alistFind {α : Type} : List (Nat × α) → Nat → Option α
  | [], _ => none
  | (k, v) :: rest, key => if key = k then some v else alistFind rest key

/-- Python `d[k] = v`: overwrite the first entry in place when present,
otherwise append a fresh entry at the end (dicts preserve insertion
order). -/
def alistSet {α : Type} : List (Nat × α) → Nat → α → List (Nat × α)
  | [], key, val => [(key, val)]
  | (k, v) :: rest, key, val =>
    if key = k then (key, val) :: rest else (k, v) :: alistSet rest key val

/-- Python `del d[k]`: drop the entry for `k`. -/
def alistErase {α : Type} : List (Nat × α) → Nat → List (Nat × α)
  | [], _ => []
  | (k, v) :: rest, key => if key = k then rest else (k, v) :: alistErase rest key

/-- `class Session`: per-guild transcription state
(`transcription_logic.py`, lines 21-35). -/
structure Session where
  is_recording : Bool
  user_transcripts : List (Nat × List String)
  user_names : List (Nat × String)
  audio_buffers : List (Nat × List Nat)
deriving DecidableEq, Repr

/-- `Session.__init__`: recording off, all three mappings empty. -/
def Session.init : Session :=
  { is_recording := false, user_transcripts := [], user_names := [], audio_buffers := [] }

/-- `Session.append_final_line`:
`self.user_transcripts.setdefault(user_id, []).append(text)`. -/
def Session.append_final_line (s : Session) (user_id : Nat) (text : String) : Session :=
  { s with user_transcripts :=
      (alistSet s.user_transcripts user_id
        ((alistFind s.user_transcripts user_id).getD [] ++ [text])) }

/-- The `lines` list built by `Session.get_combined_transcript`: for each
entry of `user_transcripts` in order, for each segment in order, the line
`f"{name}:\n{t}\n"` where `name = self.user_names.get(uid, f"User {uid}")`. -/
def Session.transcriptLines (s : Session) : List String :=
  s.user_transcripts.foldl
    (fun lines p =>
      lines ++ p.2.map (fun t =>
        (alistFind s.user_names p.1).getD ("User " ++ toString p.1) ++ ":\n" ++ t ++ "\n"))
    []

/-- `Session.get_combined_transcript`: `"\n".join(lines)`. -/
def Session.get_combined_transcript (s : Session) : String :=
  String.intercalate "\n" s.transcriptLines

/-- The buffer-append statement of `SessionManager.process_audio_chunk`
(line 148): `session.audio_buffers.setdefault(user_id, bytearray()).extend(pcm_data)` —
the user's buffer (created empty at the end of the dict if absent) is
extended in place with the chunk. -/
def Session.bufferChunk (s : Session) (user_id : Nat) (pcm_data : List Nat) : Session :=
  { s with audio_buffers :=
      (alistSet s.audio_buffers user_id
        ((alistFind s.audio_buffers user_id).getD [] ++ pcm_data)) }

/-- `class SessionManager`: the guild-id → session mapping. The background
flusher thread started in `__init__` is modelled by explicit flush events. -/
structure SessionManager where
  sessions : List (Nat × Session)
deriving DecidableEq, Repr

/-- `SessionManager.get_or_create_session`: return the existing session or
store and return a fresh one. Returns the session together with the
(possibly extended) manager, since Python mutates `self.sessions` in
place. -/
def SessionManager.get_or_create_session (m : SessionManager) (guild_id : Nat) :
    Session × SessionManager :=
  match alistFind m.sessions guild_id with
  | some s => (s, m)
  | none => (Session.init, ⟨alistSet m.sessions guild_id Session.init⟩)

/-- `SessionManager.remove_session`: `if guild_id in self.sessions: del ...`. -/
def SessionManager.remove_session (m : SessionManager) (guild_id : Nat) : SessionManager :=
  match alistFind m.sessions guild_id with
  | some _ => ⟨alistErase m.sessions guild_id⟩
  | none => m

/-- `SessionManager.start_recording`: fetch-or-create, set
`is_recording = True`, return the session. Mutation of the shared session
object is modelled by writing the updated session back into the map. -/
def SessionManager.start_recording (m : SessionManager) (guild_id : Nat) :
    Session × SessionManager :=
  let p := m.get_or_create_session guild_id
  let s := { p.1 with is_recording := true }
  (s, ⟨alistSet p.2.sessions guild_id s⟩)

/-- Python's `str.strip()` with no argument: remove leading and trailing
whitespace. (Defined over the character list so that it is kernel-executable;
Lean's own `String.trim` does not reduce.) -/
def pyStrip (s : String) : String :=
  ⟨((s.data.dropWhile Char.isWhitespace).reverse.dropWhile Char.isWhitespace).reverse⟩

/-- `SessionManager._flush_buffer` for one user, with the outside world's
behaviour for this flush given by `outcome`: take
`bytes(session.audio_buffers.get(user_id, b""))`; if empty, return
unchanged; otherwise clear the buffer (`= bytearray()`), then on success
append the `.strip()`ped engine text via `append_final_line`, and on an
exception (caught by the bare `except`) change nothing further. The
temp-file bookkeeping of lines 192-195 and 207-211 has no effect on
session state and is not modelled. -/
def flush_buffer (outcome : Option String) (s : Session) (user_id : Nat) : Session :=
  let buffer_data := (alistFind s.audio_buffers user_id).getD []
  if buffer_data = [] then s
  else
    let s := { s with audio_buffers := alistSet s.audio_buffers user_id [] }
    match outcome with
    | some raw => s.append_final_line user_id (pyStrip raw)
    | none => s

/-- The `for user_id in list(session.audio_buffers.keys()): self._flush_buffer(...)`
loop of `stop_recording`, over an explicit snapshot `ks` of the key list,
with per-user flush outcomes. -/
def drainBuffers (outcomes : Nat → Option String) (s : Session) (ks : List Nat) : Session :=
  ks.foldl (fun s u => flush_buffer (outcomes u) s u) s

/-- `SessionManager.stop_recording`: fetch-or-create, set
`is_recording = False`, synchronously flush every user that has a buffer,
return `get_combined_transcript()` (and the updated manager). -/
def SessionManager.stop_recording (outcomes : Nat → Option String) (m : SessionManager)
    (guild_id : Nat) : String × SessionManager :=
  let p := m.get_or_create_session guild_id
  let s := { p.1 with is_recording := false }
  let s := drainBuffers outcomes s (s.audio_buffers.map Prod.fst)
  (s.get_combined_transcript, ⟨alistSet p.2.sessions guild_id s⟩)

/-- `SessionManager.process_audio_chunk`: fetch-or-create; if the session
is not recording, return silently (the fetch-or-create side effect on the
map persists); otherwise append the chunk to the user's buffer. -/
def SessionManager.process_audio_chunk (m : SessionManager) (guild_id user_id : Nat)
    (pcm_data : List Nat) : SessionManager :=
  let p := m.get_or_create_session guild_id
  if !p.1.is_recording then p.2
  else ⟨alistSet p.2.sessions guild_id (p.1.bufferChunk user_id pcm_data)⟩

/-- `SessionManager.set_user_name`: fetch-or-create, then
`session.user_names[user_id] = display_name`. -/
def SessionManager.set_user_name (m : SessionManager) (guild_id user_id : Nat)
    (display_name : String) : SessionManager :=
  let p := m.get_or_create_session guild_id
  ⟨alistSet p.2.sessions guild_id
    { p.1 with user_names := alistSet p.1.user_names user_id display_name }⟩

/-- One `(session, user)` step of the `SessionManager._buffer_flusher` tick:
flush only sessions that exist and are recording and only users with a
non-empty buffer. -/
def SessionManager.scheduledFlush (m : SessionManager) (guild_id user_id : Nat)
    (outcome : Option String) : SessionManager :=
  match alistFind m.sessions guild_id with
  | none => m
  | some s =>
    if s.is_recording ∧ (alistFind s.audio_buffers user_id).getD [] ≠ [] then
      ⟨alistSet m.sessions guild_id (flush_buffer outcome s user_id)⟩
    else m

/-- The byte content of a user's buffer (empty when absent). -/
def bufGet (s : Session) (u : Nat) : List Nat :=
  (alistFind s.audio_buffers u).getD []

/-- A user's transcript-segment list (empty when absent). -/
def segsOf (s : Session) (u : Nat) : List String :=
  (alistFind s.user_transcripts u).getD []

/-- A user's transcript-segment list inside a manager. -/
def segsOfM (m : SessionManager) (g u : Nat) : List String :=
  match alistFind m.sessions g with
  | some s => segsOf s u
  | none => []

/-- A user's buffer slot inside a manager (`none` when the session or the
buffer entry is absent). -/
def bufOfM (m : SessionManager) (g u : Nat) : Option (List Nat) :=
  (alistFind m.sessions g).bind (fun s => alistFind s.audio_buffers u)


/-! ### Sequential traces of ingestion and flushing on one session (C1) -/

/-- One sequential operation on a session: a `process_audio_chunk` call for
a user (effective only while `is_recording`), or a `_flush_buffer` call for
a user with a given external outcome (this single code path serves both the
scheduler tick and `stop_recording`). -/
inductive SEvent where
  | ingest (uid : Nat) (pcm : List Nat)
  | flushEv (uid : Nat) (outcome : Option String)

/-- Apply one event; also return the byte blocks handed to the flush
pipeline by this event (`_flush_buffer` reaches the pipeline only when the
swapped-out buffer is non-empty). -/
def sessStep (s : Session) : SEvent → Session × List (Nat × List Nat)
  | .ingest u pcm => (if s.is_recording then s.bufferChunk u pcm else s, [])
  | .flushEv u o =>
    (flush_buffer o s u, if bufGet s u = [] then [] else [(u, bufGet s u)])

/-- Run a trace of events, concatenating the pipeline log. -/
def sessRun : Session → List SEvent → Session × List (Nat × List Nat)
  | s, [] => (s, [])
  | s, e :: tr =>
    let p := sessStep s e
    let q := sessRun p.1 tr
    (q.1, p.2 ++ q.2)

/-- Concatenation, in flush order, of the byte blocks handed to the flush
pipeline for user `u`. -/
def flushedBytes (log : List (Nat × List Nat)) (u : Nat) : List Nat :=
  log.foldr (fun p acc => if p.1 = u then p.2 ++ acc else acc) []

/-- Concatenation, in call order, of the chunks ingested for user `u`. -/
def ingestedBytes (tr : List SEvent) (u : Nat) : List Nat :=
  tr.foldr (fun e acc =>
    match e with
    | .ingest v pcm => if v = u then pcm ++ acc else acc
    | .flushEv _ _ => acc) []

/-! ### Spec-side rendering definitions (for the C5 refinement) -/

/-- Modelled from the spec (section 4.2): fallback label when no display
name is set — a deterministic placeholder derived only from the speaker
id. -/
def displayNameOrFallback (s : Session) (uid : Nat) : String :=
  match alistFind s.user_names uid with
  | some n => n
  | none => "User " ++ toString uid

/-- Modelled from the spec (section 4.2 `combinedTranscript`): for each
speaker in first-seen order of the transcript mapping, emit the block
`label ++ ":\n" ++ segment ++ "\n"` for each segment in arrival order, and
join consecutive blocks with `"\n"` (a blank line between blocks). Declared
separately so the implementation can be proved equal to it. -/
def combinedTranscriptSpec (s : Session) : String :=
  String.intercalate "\n"
    ((s.user_transcripts.map (fun p =>
        p.2.map (fun t => displayNameOrFallback s p.1 ++ ":\n" ++ t ++ "\n"))).flatten)

/-- The output block line of one transcript segment of user `u`. -/
def lineFor (s : Session) (u : Nat) (t : String) : String :=
  (alistFind s.user_names u).getD ("User " ++ toString u) ++ ":\n" ++ t ++ "\n"

/-! ### Manager-level operation traces (C8) -/

/-- One `SessionManager` operation, with external flush outcomes where the
flush pipeline is reached: `start_recording`, `stop_recording`,
`process_audio_chunk`, `set_user_name`, `remove_session`, or one
`(session, user)` flush step of a `_buffer_flusher` tick. -/
inductive MEvent where
  | startEv (g : Nat)
  | stopEv (g : Nat) (outcomes : Nat → Option String)
  | ingestEv (g u : Nat) (pcm : List Nat)
  | nameEv (g u : Nat) (display_name : String)
  | removeEv (g : Nat)
  | tickEv (g u : Nat) (outcome : Option String)

/-- Apply one manager operation; also report `[(g, u)]` when the operation
is an ingest accepted while the session was recording (the condition of
line 145, evaluated on the fetched-or-created session). -/
def mStep (m : SessionManager) : MEvent → SessionManager × List (Nat × Nat)
  | .startEv g => ((m.start_recording g).2, [])
  | .stopEv g outs => ((SessionManager.stop_recording outs m g).2, [])
  | .ingestEv g u pcm =>
    (m.process_audio_chunk g u pcm,
     if ((alistFind m.sessions g).getD Session.init).is_recording then [(g, u)] else [])
  | .nameEv g u n => (m.set_user_name g u n, [])
  | .removeEv g => (m.remove_session g, [])
  | .tickEv g u o => (m.scheduledFlush g u o, [])

/-- Run a trace of manager operations from a given manager, collecting the
accepted-ingest log. -/
def mRun : SessionManager → List MEvent → SessionManager × List (Nat × Nat)
  | m, [] => (m, [])
  | m, e :: tr =>
    let p := mStep m e
    let q := mRun p.1 tr
    (q.1, p.2 ++ q.2)

/-! ### Concrete sample data used by witnesses and counterexamples -/

/-- A recording session with one buffered chunk for user 1. -/
def sessA : Session :=
  { is_recording := true, user_transcripts := [], user_names := [],
    audio_buffers := [(1, [7])] }

/-- A non-recording session with transcript and name data and an empty
buffer entry. -/
def sessB : Session :=
  { is_recording := false, user_transcripts := [(1, ["hello"]), (2, [])],
    user_names := [(1, "Alice")], audio_buffers := [(1, [])] }

/-- A manager holding `sessA` at guild 5. -/
def mgrA : SessionManager := ⟨[(5, sessA)]⟩

/-- A manager holding `sessA` at guild 5 and `sessB` at guild 6. -/
def mgrB : SessionManager := ⟨[(5, sessA), (6, sessB)]⟩

/-- Flush outcomes: success with raw text `" hello "` for user 1, failure
for everyone else. -/
def outcomesA : Nat → Option String := fun u => if u = 1 then some " hello " else none

/-! ### Association-list lemmas -/

theorem alistFind_set {α : Type} (l : List (Nat × α)) (k k' : Nat) (v : α) :
    alistFind (alistSet l k v) k' = if k' = k then some v else alistFind l k' := by
  induction l with
  | nil => by_cases h : k' = k <;> simp [alistSet, alistFind, h]
  | cons p rest ih =>
    obtain ⟨pk, pv⟩ := p
    by_cases hk : k = pk
    · subst hk
      by_cases h : k' = k <;> simp [alistSet, alistFind, h]
    · by_cases h : k' = pk
      · subst h
        simp [alistSet, alistFind, hk, Ne.symm hk]
      · simp [alistSet, alistFind, hk, h, ih]

theorem alistFind_mem {α : Type} {l : List (Nat × α)} {k : Nat} {v : α}
    (h : alistFind l k = some v) : (k, v) ∈ l := by
  induction l with
  | nil => simp [alistFind] at h
  | cons p rest ih =>
    obtain ⟨pk, pv⟩ := p
    by_cases hk : k = pk
    · subst hk
      simp [alistFind] at h
      simp [h]
    · simp [alistFind, hk] at h
      exact List.mem_cons_of_mem _ (ih h)

theorem mem_keys_of_find {α : Type} {l : List (Nat × α)} {k : Nat} {v : α}
    (h : alistFind l k = some v) : k ∈ l.map Prod.fst := by
  exact List.mem_map.mpr ⟨(k, v), alistFind_mem h, rfl⟩

theorem find_eq_none_of_not_mem {α : Type} {l : List (Nat × α)} {k : Nat}
    (h : k ∉ l.map Prod.fst) : alistFind l k = none := by
  induction l with
  | nil => rfl
  | cons p rest ih =>
    simp only [List.map_cons, List.mem_cons] at h
    push_neg at h
    simp [alistFind, h.1, ih h.2]

theorem find_isSome_of_mem {α : Type} {l : List (Nat × α)} {k : Nat}
    (h : k ∈ l.map Prod.fst) : (alistFind l k).isSome := by
  induction l with
  | nil => simp at h
  | cons p rest ih =>
    by_cases hk : k = p.1
    · simp [alistFind, hk]
    · simp only [List.map_cons, List.mem_cons] at h
      rcases h with h | h
      · exact absurd h hk
      · simp [alistFind, hk, ih h]

theorem alistSet_keys {α : Type} (l : List (Nat × α)) (k : Nat) (v : α) :
    (alistSet l k v).map Prod.fst =
      if k ∈ l.map Prod.fst then l.map Prod.fst else l.map Prod.fst ++ [k] := by
  induction l with
  | nil => simp [alistSet]
  | cons p rest ih =>
    obtain ⟨pk, pv⟩ := p
    by_cases hk : k = pk
    · subst hk
      simp [alistSet]
    · by_cases hmem : k ∈ rest.map Prod.fst <;>
        simp [alistSet, hk, hmem, ih]

theorem alistSet_keys_of_mem {α : Type} {l : List (Nat × α)} {k : Nat} (v : α)
    (h : k ∈ l.map Prod.fst) : (alistSet l k v).map Prod.fst = l.map Prod.fst := by
  simp [alistSet_keys, h]

theorem alistSet_keys_nodup {α : Type} {l : List (Nat × α)} {k : Nat} (v : α)
    (h : (l.map Prod.fst).Nodup) : ((alistSet l k v).map Prod.fst).Nodup := by
  rw [alistSet_keys]
  by_cases hmem : k ∈ l.map Prod.fst
  · simpa [hmem] using h
  · simp only [hmem, if_false]
    simp [List.nodup_append, h, hmem]

theorem alistErase_sublist {α : Type} (l : List (Nat × α)) (k : Nat) :
    (alistErase l k).Sublist l := by
  induction l with
  | nil => simp [alistErase]
  | cons p rest ih =>
    obtain ⟨pk, pv⟩ := p
    by_cases hk : k = pk
    · simp [alistErase, hk]
    · simp only [alistErase, if_neg hk]
      exact List.Sublist.cons₂ (pk, pv) ih

theorem alistErase_keys_nodup {α : Type} {l : List (Nat × α)} {k : Nat}
    (h : (l.map Prod.fst).Nodup) : ((alistErase l k).map Prod.fst).Nodup :=
  ((alistErase_sublist l k).map Prod.fst).nodup h

theorem alistErase_find_self {α : Type} {l : List (Nat × α)} {k : Nat}
    (h : (l.map Prod.fst).Nodup) : alistFind (alistErase l k) k = none := by
  induction l with
  | nil => rfl
  | cons p rest ih =>
    obtain ⟨pk, pv⟩ := p
    simp only [List.map_cons, List.nodup_cons] at h
    by_cases hk : k = pk
    · subst hk
      simp only [alistErase, if_pos rfl]
      exact find_eq_none_of_not_mem h.1
    · simp [alistErase, alistFind, hk, ih h.2]

theorem alistErase_find_ne {α : Type} (l : List (Nat × α)) {k k' : Nat}
    (h : k' ≠ k) : alistFind (alistErase l k) k' = alistFind l k' := by
  induction l with
  | nil => rfl
  | cons p rest ih =>
    obtain ⟨pk, pv⟩ := p
    by_cases hk : k = pk
    · subst hk
      simp [alistErase, alistFind, h]
    · by_cases hk' : k' = pk <;> simp [alistErase, alistFind, hk, hk', ih]

/-! ### Lemmas about a single flush -/

theorem append_final_line_segsOf_self (s : Session) (u : Nat) (t : String) :
    segsOf (s.append_final_line u t) u = segsOf s u ++ [t] := by
  simp [Session.append_final_line, segsOf, alistFind_set]

theorem append_final_line_segsOf_ne (s : Session) (u v : Nat) (t : String) (h : v ≠ u) :
    segsOf (s.append_final_line u t) v = segsOf s v := by
  simp [Session.append_final_line, segsOf, alistFind_set, h]

theorem flush_buffer_of_empty {o : Option String} {s : Session} {u : Nat}
    (h : bufGet s u = []) : flush_buffer o s u = s := by
  simp only [bufGet] at h
  simp [flush_buffer, h]

theorem flush_buffer_is_recording (o : Option String) (s : Session) (u : Nat) :
    (flush_buffer o s u).is_recording = s.is_recording := by
  by_cases h : (alistFind s.audio_buffers u).getD [] = []
  · simp [flush_buffer, h]
  · cases o <;> simp [flush_buffer, h, Session.append_final_line]

theorem flush_buffer_names (o : Option String) (s : Session) (u : Nat) :
    (flush_buffer o s u).user_names = s.user_names := by
  by_cases h : (alistFind s.audio_buffers u).getD [] = []
  · simp [flush_buffer, h]
  · cases o <;> simp [flush_buffer, h, Session.append_final_line]

theorem flush_buffer_buffers (o : Option String) (s : Session) (u : Nat)
    (h : bufGet s u ≠ []) :
    (flush_buffer o s u).audio_buffers = alistSet s.audio_buffers u [] := by
  simp only [bufGet] at h
  cases o <;> simp [flush_buffer, h, Session.append_final_line]

theorem bufGet_flush_self (o : Option String) (s : Session) (u : Nat) :
    bufGet (flush_buffer o s u) u = [] := by
  by_cases h : bufGet s u = []
  · rw [flush_buffer_of_empty h, h]
  · rw [bufGet, flush_buffer_buffers o s u h, alistFind_set]
    simp

theorem bufGet_flush_ne (o : Option String) (s : Session) {u v : Nat} (h : v ≠ u) :
    bufGet (flush_buffer o s u) v = bufGet s v := by
  by_cases he : bufGet s u = []
  · rw [flush_buffer_of_empty he]
  · rw [bufGet, flush_buffer_buffers o s u he, alistFind_set, if_neg h, bufGet]

theorem flush_buffer_transcripts_none {s : Session} {u : Nat}
    (h : bufGet s u ≠ []) :
    (flush_buffer none s u).user_transcripts = s.user_transcripts := by
  simp only [bufGet] at h
  simp [flush_buffer, h]

theorem flush_buffer_transcripts_some {s : Session} {u : Nat} (t : String)
    (h : bufGet s u ≠ []) :
    (flush_buffer (some t) s u).user_transcripts =
      alistSet s.user_transcripts u (segsOf s u ++ [pyStrip t]) := by
  simp only [bufGet] at h
  simp [flush_buffer, h, Session.append_final_line, segsOf]

theorem segsOf_flush_some {s : Session} {u : Nat} (t : String)
    (h : bufGet s u ≠ []) :
    segsOf (flush_buffer (some t) s u) u = segsOf s u ++ [pyStrip t] := by
  rw [segsOf, flush_buffer_transcripts_some t h, alistFind_set]
  simp [segsOf]

theorem segsOf_flush_ne (o : Option String) (s : Session) {u v : Nat} (h : v ≠ u) :
    segsOf (flush_buffer o s u) v = segsOf s v := by
  by_cases he : bufGet s u = []
  · rw [flush_buffer_of_empty he]
  · simp only [bufGet] at he
    cases o <;>
      simp [flush_buffer, he, Session.append_final_line, segsOf, alistFind_set, h]

theorem flush_buffer_keys (o : Option String) (s : Session) (u : Nat) :
    (flush_buffer o s u).audio_buffers.map Prod.fst = s.audio_buffers.map Prod.fst := by
  by_cases h : bufGet s u = []
  · rw [flush_buffer_of_empty h]
  · rw [flush_buffer_buffers o s u h]
    apply alistSet_keys_of_mem
    rw [bufGet] at h
    cases hf : alistFind s.audio_buffers u with
    | none => rw [hf] at h; simp at h
    | some v => exact mem_keys_of_find hf

/-! ### Lemmas about the stop-recording drain loop -/

theorem drainBuffers_cons (o : Nat → Option String) (s : Session) (k : Nat) (ks : List Nat) :
    drainBuffers o s (k :: ks) = drainBuffers o (flush_buffer (o k) s k) ks := rfl

theorem drainBuffers_is_recording (o : Nat → Option String) (s : Session) (ks : List Nat) :
    (drainBuffers o s ks).is_recording = s.is_recording := by
  induction ks generalizing s with
  | nil => rfl
  | cons k ks ih => rw [drainBuffers_cons, ih, flush_buffer_is_recording]

theorem drainBuffers_names (o : Nat → Option String) (s : Session) (ks : List Nat) :
    (drainBuffers o s ks).user_names = s.user_names := by
  induction ks generalizing s with
  | nil => rfl
  | cons k ks ih => rw [drainBuffers_cons, ih, flush_buffer_names]

theorem drainBuffers_keys (o : Nat → Option String) (s : Session) (ks : List Nat) :
    (drainBuffers o s ks).audio_buffers.map Prod.fst = s.audio_buffers.map Prod.fst := by
  induction ks generalizing s with
  | nil => rfl
  | cons k ks ih => rw [drainBuffers_cons, ih, flush_buffer_keys]

theorem segsOf_drain_not_mem (o : Nat → Option String) (s : Session) {ks : List Nat}
    {v : Nat} (h : v ∉ ks) : segsOf (drainBuffers o s ks) v = segsOf s v := by
  induction ks generalizing s with
  | nil => rfl
  | cons k ks ih =>
    simp only [List.mem_cons] at h
    push_neg at h
    rw [drainBuffers_cons, ih _ h.2, segsOf_flush_ne _ _ h.1]

theorem bufGet_drain_not_mem (o : Nat → Option String) (s : Session) {ks : List Nat}
    {v : Nat} (h : v ∉ ks) : bufGet (drainBuffers o s ks) v = bufGet s v := by
  induction ks generalizing s with
  | nil => rfl
  | cons k ks ih =>
    simp only [List.mem_cons] at h
    push_neg at h
    rw [drainBuffers_cons, ih _ h.2, bufGet_flush_ne _ _ h.1]

theorem bufGet_drain_empty (o : Nat → Option String) (s : Session) (ks : List Nat)
    {v : Nat} (h : bufGet s v = []) : bufGet (drainBuffers o s ks) v = [] := by
  induction ks generalizing s with
  | nil => exact h
  | cons k ks ih =>
    rw [drainBuffers_cons]
    by_cases hv : v = k
    · subst hv
      exact ih _ (bufGet_flush_self _ _ _)
    · exact ih _ (by rw [bufGet_flush_ne _ _ hv]; exact h)

theorem bufGet_drain_mem (o : Nat → Option String) (s : Session) {ks : List Nat}
    {v : Nat} (h : v ∈ ks) : bufGet (drainBuffers o s ks) v = [] := by
  induction ks generalizing s with
  | nil => simp at h
  | cons k ks ih =>
    rw [drainBuffers_cons]
    by_cases hv : v = k
    · subst hv
      exact bufGet_drain_empty _ _ _ (bufGet_flush_self _ _ _)
    · exact ih _ ((List.mem_cons.mp h).resolve_left hv)

/-- Net effect of the drain loop on one user's transcript, when the key
list has no duplicates: the user's own outcome (and only it) decides
whether one trimmed segment is appended. -/
theorem segsOf_drain (o : Nat → Option String) (s : Session) {ks : List Nat}
    (hnd : ks.Nodup) (v : Nat) :
    segsOf (drainBuffers o s ks) v =
      if v ∈ ks ∧ bufGet s v ≠ [] then
        (match o v with
         | some t => segsOf s v ++ [pyStrip t]
         | none => segsOf s v)
      else segsOf s v := by
  induction ks generalizing s with
  | nil => simp [drainBuffers]
  | cons k ks ih =>
    rw [List.nodup_cons] at hnd
    rw [drainBuffers_cons]
    by_cases hv : v = k
    · subst hv
      rw [segsOf_drain_not_mem o _ hnd.1]
      by_cases hb : bufGet s v = []
      · rw [flush_buffer_of_empty hb]
        simp [hb]
      · rw [if_pos ⟨List.mem_cons_self v ks, hb⟩]
        cases ho : o v with
        | some t => exact segsOf_flush_some t hb
        | none => simp only [segsOf, flush_buffer_transcripts_none hb]
    · rw [ih _ hnd.2, segsOf_flush_ne _ _ hv, bufGet_flush_ne _ _ hv]
      by_cases hmem : v ∈ ks <;> simp [hmem, hv]

/-- Draining users whose buffers are all empty changes nothing. -/
theorem drainBuffers_id (o : Nat → Option String) (s : Session) {ks : List Nat}
    (h : ∀ u ∈ ks, bufGet s u = []) : drainBuffers o s ks = s := by
  induction ks with
  | nil => rfl
  | cons k ks ih =>
    rw [drainBuffers_cons, flush_buffer_of_empty (h k (List.mem_cons_self k ks))]
    exact ih (fun u hu => h u (List.mem_cons_of_mem k hu))

/-! ### Lemmas about get-or-create -/

theorem goc_fst (m : SessionManager) (g : Nat) :
    (m.get_or_create_session g).1 = (alistFind m.sessions g).getD Session.init := by
  rw [SessionManager.get_or_create_session]
  cases alistFind m.sessions g <;> rfl

theorem goc_find (m : SessionManager) (g g' : Nat) :
    alistFind (m.get_or_create_session g).2.sessions g' =
      if g' = g then some (m.get_or_create_session g).1
      else alistFind m.sessions g' := by
  rw [SessionManager.get_or_create_session]
  cases hf : alistFind m.sessions g with
  | some s => by_cases h : g' = g <;> simp [h, hf]
  | none => simp [alistFind_set, hf]

theorem goc_keys_nodup {m : SessionManager} (g : Nat)
    (h : (m.sessions.map Prod.fst).Nodup) :
    ((m.get_or_create_session g).2.sessions.map Prod.fst).Nodup := by
  rw [SessionManager.get_or_create_session]
  cases alistFind m.sessions g with
  | some s => exact h
  | none => exact alistSet_keys_nodup _ h

theorem sessRun_cons (s : Session) (e : SEvent) (tr : List SEvent) :
    sessRun s (e :: tr) =
      ((sessRun (sessStep s e).1 tr).1,
       (sessStep s e).2 ++ (sessRun (sessStep s e).1 tr).2) := rfl

theorem bufGet_bufferChunk (s : Session) (v u : Nat) (pcm : List Nat) :
    bufGet (s.bufferChunk v pcm) u = if u = v then bufGet s u ++ pcm else bufGet s u := by
  by_cases h : u = v <;> simp [Session.bufferChunk, bufGet, alistFind_set, h]

/-- Conservation invariant: at every point of a sequential trace on a
recording session, the bytes already handed to the pipeline for a user
followed by the bytes still sitting in their buffer are exactly the bytes
ingested for them, in order. -/
theorem sessRun_conservation (tr : List SEvent) :
    ∀ s : Session, s.is_recording = true → ∀ u,
      flushedBytes (sessRun s tr).2 u ++ bufGet (sessRun s tr).1 u
        = bufGet s u ++ ingestedBytes tr u := by
  induction tr with
  | nil => intro s _ u; simp [sessRun, flushedBytes, ingestedBytes]
  | cons e tr ih =>
    intro s hrec u
    cases e with
    | ingest v pcm =>
      rw [sessRun_cons]
      simp only [sessStep, hrec, if_true, List.nil_append]
      have hrec' : (s.bufferChunk v pcm).is_recording = true := hrec
      rw [ih _ hrec' u, bufGet_bufferChunk]
      simp only [ingestedBytes, List.foldr_cons]
      by_cases h : u = v
      · subst h
        rw [if_pos rfl, if_pos rfl, List.append_assoc]
      · rw [if_neg h, if_neg (fun hc => h hc.symm)]
    | flushEv v o =>
      rw [sessRun_cons]
      have hrec' : (flush_buffer o s v).is_recording = true := by
        rw [flush_buffer_is_recording]; exact hrec
      have hing : ingestedBytes (SEvent.flushEv v o :: tr) u = ingestedBytes tr u := rfl
      rw [hing]
      by_cases hb : bufGet s v = []
      · simp only [sessStep, hb, if_pos rfl, List.nil_append]
        rw [flush_buffer_of_empty hb] at hrec' ⊢
        exact ih _ hrec' u
      · simp only [sessStep, if_neg hb, List.cons_append, List.nil_append]
        have hlog : flushedBytes ((v, bufGet s v) :: (sessRun (flush_buffer o s v) tr).2) u
            = (if v = u then bufGet s v else []) ++
              flushedBytes (sessRun (flush_buffer o s v) tr).2 u := by
          by_cases h : v = u <;> simp [flushedBytes, h]
        rw [hlog, List.append_assoc, ih _ hrec' u]
        by_cases h : u = v
        · subst h
          rw [if_pos rfl, bufGet_flush_self]
          simp
        · rw [if_neg (fun hc => h hc.symm), bufGet_flush_ne _ _ h]
          rfl

/-- Claim C1: over any sequential interleaving of `process_audio_chunk`
calls on a recording session with `_flush_buffer` calls for that session
(the scheduler path and the `stop_recording` path both go through
`_flush_buffer`), once a speaker's buffer has been drained, the
concatenation of the byte blocks handed to the flush pipeline for that
speaker, in flush order, equals the concatenation of that speaker's
ingested chunks in call order — no bytes lost, reordered, or duplicated
(for any flush outcomes, in particular when every flush succeeds). -/
theorem c1_flush_sees_all_ingested_bytes (tr : List SEvent) (u : Nat)
    (hdrained : bufGet (sessRun { Session.init with is_recording := true } tr).1 u = []) :
    flushedBytes (sessRun { Session.init with is_recording := true } tr).2 u
      = ingestedBytes tr u := by
  have h := sessRun_conservation tr { Session.init with is_recording := true } rfl u
  rw [hdrained, List.append_nil] at h
  have hinit : bufGet { Session.init with is_recording := true } u = [] := rfl
  rw [hinit, List.nil_append] at h
  exact h

/-- Witness for C1 at a concrete interleaving: two users, two chunks and
two flushes for user 1, ending with user 1 drained. -/
theorem c1_flush_sees_all_ingested_bytes_witness :
    bufGet (sessRun { Session.init with is_recording := true }
        [SEvent.ingest 1 [10, 11], SEvent.flushEv 1 (some "hello"),
         SEvent.ingest 2 [20], SEvent.ingest 1 [12],
         SEvent.flushEv 1 (some "world"), SEvent.flushEv 2 (some "x")]).1 1 = []
    ∧ flushedBytes (sessRun { Session.init with is_recording := true }
        [SEvent.ingest 1 [10, 11], SEvent.flushEv 1 (some "hello"),
         SEvent.ingest 2 [20], SEvent.ingest 1 [12],
         SEvent.flushEv 1 (some "world"), SEvent.flushEv 2 (some "x")]).2 1
      = ingestedBytes
        [SEvent.ingest 1 [10, 11], SEvent.flushEv 1 (some "hello"),
         SEvent.ingest 2 [20], SEvent.ingest 1 [12],
         SEvent.flushEv 1 (some "world"), SEvent.flushEv 2 (some "x")] 1 :=
  ⟨by decide, c1_flush_sees_all_ingested_bytes _ 1 (by decide)⟩

/-! ### Combined-transcript rendering (C5, C10) -/

theorem foldl_append_flatten {α β : Type} (f : α → List β) :
    ∀ (l : List α) (acc : List β),
      l.foldl (fun x p => x ++ f p) acc = acc ++ (l.map f).flatten := by
  intro l
  induction l with
  | nil => intro acc; simp
  | cons a l ih => intro acc; simp [ih]

theorem transcriptLines_eq (s : Session) :
    s.transcriptLines =
      (s.user_transcripts.map (fun p => p.2.map (lineFor s p.1))).flatten := by
  have h := foldl_append_flatten
      (fun p : Nat × List String => p.2.map (lineFor s p.1)) s.user_transcripts []
  simpa [Session.transcriptLines, lineFor] using h

theorem lineFor_eq_spec (s : Session) (u : Nat) (t : String) :
    lineFor s u t = displayNameOrFallback s u ++ ":\n" ++ t ++ "\n" := by
  rw [lineFor, displayNameOrFallback]
  cases alistFind s.user_names u <;> rfl

/-- Claim C5: `get_combined_transcript` is a pure read (it is a function of
the session state alone and returns only a string, so two calls with no
intervening mutation are equal by reflexivity), and its output is exactly
the spec-side rendering: speakers in first-seen order of the transcript
mapping, segments in arrival order, each segment emitted as the block
`label ++ ":\n" ++ segment ++ "\n"` with consecutive blocks joined by
`"\n"` (a blank line), the label falling back to a placeholder derived
only from the speaker id. -/
theorem c5_combined_transcript_format (s : Session) :
    s.get_combined_transcript = combinedTranscriptSpec s := by
  rw [Session.get_combined_transcript, combinedTranscriptSpec, transcriptLines_eq]
  congr 1
  congr 1
  exact List.map_congr_left
    (fun p _ => List.map_congr_left (fun t _ => lineFor_eq_spec s p.1 t))

theorem set_user_name_find (m : SessionManager) (g u : Nat) (n : String) (g' : Nat) :
    alistFind (m.set_user_name g u n).sessions g' =
      if g' = g then
        some { (m.get_or_create_session g).1 with
               user_names := alistSet (m.get_or_create_session g).1.user_names u n }
      else alistFind m.sessions g' := by
  rw [SessionManager.set_user_name]
  by_cases h : g' = g
  · simp [h, alistFind_set]
  · simp [h, alistFind_set, goc_find]

/-- Claim C10: the combined transcript contains the block lines of a
speaker exactly when that speaker has at least one appended transcript
segment; `set_user_name` never changes any speaker's segment list (so it
alone cannot make a speaker appear); and a failed flush appends nothing,
so a speaker all of whose flushes failed has no segments and hence no
block. -/
theorem c10_block_iff_segment (s : Session) (u : Nat) :
    ((∃ t, t ∈ segsOf s u ∧ lineFor s u t ∈ s.transcriptLines) ↔ segsOf s u ≠ [])
    ∧ (∀ (m : SessionManager) (g v w x : Nat) (n : String),
        segsOfM (m.set_user_name g v n) w x = segsOfM m w x)
    ∧ (bufGet s u ≠ [] → (flush_buffer none s u).user_transcripts = s.user_transcripts) := by
  refine ⟨⟨?_, ?_⟩, ?_, ?_⟩
  · rintro ⟨t, ht, -⟩ hnil
    rw [hnil] at ht
    simp at ht
  · intro hne
    rw [segsOf] at hne
    cases hf : alistFind s.user_transcripts u with
    | none => rw [hf] at hne; simp at hne
    | some l =>
      rw [hf, Option.getD_some] at hne
      obtain ⟨t, ht⟩ := List.exists_mem_of_ne_nil l hne
      refine ⟨t, by rw [segsOf, hf, Option.getD_some]; exact ht, ?_⟩
      rw [transcriptLines_eq, List.mem_flatten]
      refine ⟨l.map (lineFor s u), ?_, ?_⟩
      · exact List.mem_map.mpr ⟨(u, l), alistFind_mem hf, rfl⟩
      · exact List.mem_map.mpr ⟨t, ht, rfl⟩
  · intro m g v w x n
    rw [segsOfM, segsOfM, set_user_name_find]
    by_cases hw : w = g
    · rw [if_pos hw]
      subst hw
      cases hf : alistFind m.sessions w with
      | some s0 => simp [segsOf, goc_fst, hf]
      | none => simp [segsOf, goc_fst, hf, Session.init, alistFind]
    · rw [if_neg hw]
  · exact fun h => flush_buffer_transcripts_none h

/-- Witness for C10: a failed flush of `sessA` leaves the transcript
mapping unchanged. -/
theorem c10_block_iff_segment_witness :
    bufGet sessA 1 ≠ [] ∧
    (flush_buffer none sessA 1).user_transcripts = sessA.user_transcripts :=
  ⟨by decide, (c10_block_iff_segment sessA 1).2.2 (by decide)⟩

/-! ### C3: what a successful flush appends -/

/-- Counterexample to claim C3 as stated: `_flush_buffer` calls
`append_final_line` unconditionally after `.strip()` (lines 202-204 of
`transcription_logic.py`) — there is no non-empty check — so a successful
transcription whose stripped result is the empty string still appends an
(empty) segment. Concretely: user 1 has a buffered chunk, transcription
succeeds with raw text `" "`, the stripped text is `""`, and the speaker's
segment list goes from `[]` to `[""]` instead of staying `[]`. -/
theorem c3_counterexample :
    pyStrip " " = ""
    ∧ segsOf sessA 1 = []
    ∧ segsOf (flush_buffer (some " ") sessA 1) 1 = [""] := by decide

/-- Claim C3 (amended): in the flush pipeline, when conversion and
transcription both succeed, the transcribed text is stripped of
surrounding whitespace and appended to that speaker's transcript sequence
unconditionally — also when the stripped text is the empty string. -/
theorem c3_strip_and_append_unconditionally (s : Session) (u : Nat) (t : String)
    (h : bufGet s u ≠ []) :
    (flush_buffer (some t) s u).user_transcripts =
      alistSet s.user_transcripts u (segsOf s u ++ [pyStrip t]) :=
  flush_buffer_transcripts_some t h

/-- Witness for the amended C3 at a concrete flush. -/
theorem c3_strip_and_append_unconditionally_witness :
    bufGet sessA 1 ≠ []
    ∧ (flush_buffer (some "  hi ") sessA 1).user_transcripts =
        alistSet sessA.user_transcripts 1 (segsOf sessA 1 ++ [pyStrip "  hi "]) :=
  ⟨by decide, c3_strip_and_append_unconditionally sessA 1 "  hi " (by decide)⟩

/-! ### C6: the recording gate of process_audio_chunk -/

/-- Claim C6: `process_audio_chunk` is total (no error paths); while the
session is not recording it changes no buffer — for an existing
non-recording session the manager is returned unchanged, and for an absent
session only an empty fresh session is added, every buffer slot of every
session reading exactly as before; while recording it appends exactly the
given bytes to the end of that speaker's buffer and changes no other
buffer slot and no other session. -/
theorem c6_ingest_gate (m : SessionManager) (g u : Nat) (pcm : List Nat) :
    (∀ s, alistFind m.sessions g = some s → s.is_recording = false →
        m.process_audio_chunk g u pcm = m)
    ∧ (alistFind m.sessions g = none →
        ∀ g' u', bufOfM (m.process_audio_chunk g u pcm) g' u' = bufOfM m g' u')
    ∧ (∀ s, alistFind m.sessions g = some s → s.is_recording = true →
        bufOfM (m.process_audio_chunk g u pcm) g u = some (bufGet s u ++ pcm)
        ∧ (∀ u', u' ≠ u →
            bufOfM (m.process_audio_chunk g u pcm) g u' = bufOfM m g u')
        ∧ (∀ g', g' ≠ g →
            alistFind (m.process_audio_chunk g u pcm).sessions g'
              = alistFind m.sessions g')) := by
  refine ⟨?_, ?_, ?_⟩
  · intro s hf hrec
    simp [SessionManager.process_audio_chunk, SessionManager.get_or_create_session, hf, hrec]
  · intro hf g' u'
    simp only [SessionManager.process_audio_chunk, SessionManager.get_or_create_session, hf]
    by_cases hg : g' = g
    · subst hg
      simp [bufOfM, alistFind_set, hf, Session.init, alistFind]
    · simp [bufOfM, alistFind_set, hg, Session.init]
  · intro s hf hrec
    refine ⟨?_, ?_, ?_⟩
    · simp [SessionManager.process_audio_chunk, SessionManager.get_or_create_session, hf,
        hrec, bufOfM, alistFind_set, Session.bufferChunk, bufGet]
    · intro u' hu'
      simp [SessionManager.process_audio_chunk, SessionManager.get_or_create_session, hf,
        hrec, bufOfM, alistFind_set, Session.bufferChunk, hu']
    · intro g' hg'
      simp [SessionManager.process_audio_chunk, SessionManager.get_or_create_session, hf,
        hrec, alistFind_set, hg']

/-- Witness for C6: ingesting `[9]` for user 1 of recording guild 5
extends the buffer `[7]` to `[7, 9]`. -/
theorem c6_ingest_gate_witness :
    bufOfM (SessionManager.process_audio_chunk mgrA 5 1 [9]) 5 1
      = some (bufGet sessA 1 ++ [9]) :=
  ((c6_ingest_gate mgrA 5 1 [9]).2.2 sessA (by decide) (by decide)).1

/-! ### C7: session removal -/

/-- Claim C7: `remove_session` is a no-op when no session exists for the
id, and otherwise deletes the session together with all its buffered and
transcribed state: afterwards no session is found under that id, and the
next reference through `get_or_create_session` (the shared path of ingest,
start, stop and name-set) observes a completely fresh `Session.init` —
empty transcripts, empty buffers, empty names, not recording — never data
of the removed session. -/
theorem c7_remove_session_fresh (m : SessionManager) (g : Nat)
    (hnd : (m.sessions.map Prod.fst).Nodup) :
    ((m.remove_session g).get_or_create_session g).1 = Session.init
    ∧ alistFind (m.remove_session g).sessions g = none
    ∧ (alistFind m.sessions g = none → m.remove_session g = m) := by
  have hfind : alistFind (m.remove_session g).sessions g = none := by
    rw [SessionManager.remove_session]
    cases hf : alistFind m.sessions g with
    | some s => simpa using alistErase_find_self hnd
    | none => simpa using hf
  refine ⟨?_, hfind, ?_⟩
  · rw [goc_fst, hfind]
    rfl
  · intro hf
    rw [SessionManager.remove_session, hf]

/-- Witness for C7 on a concrete two-session manager. -/
theorem c7_remove_session_fresh_witness :
    (mgrB.sessions.map Prod.fst).Nodup
    ∧ (((mgrB.remove_session 5).get_or_create_session 5).1 = Session.init
       ∧ alistFind (mgrB.remove_session 5).sessions 5 = none
       ∧ (alistFind mgrB.sessions 5 = none → mgrB.remove_session 5 = mgrB)) :=
  ⟨by decide, c7_remove_session_fresh mgrB 5 (by decide)⟩

/-! ### C2, C4, C9: stop_recording -/

theorem stop_recording_eq (outcomes : Nat → Option String) (m : SessionManager) (g : Nat) :
    SessionManager.stop_recording outcomes m g =
      ((drainBuffers outcomes
          { (m.get_or_create_session g).1 with is_recording := false }
          ((m.get_or_create_session g).1.audio_buffers.map Prod.fst)).get_combined_transcript,
       ⟨alistSet (m.get_or_create_session g).2.sessions g
          (drainBuffers outcomes
            { (m.get_or_create_session g).1 with is_recording := false }
            ((m.get_or_create_session g).1.audio_buffers.map Prod.fst))⟩) := rfl

theorem bufGet_set_not_recording (s : Session) (u : Nat) :
    bufGet { s with is_recording := false } u = bufGet s u := rfl

theorem segsOf_set_not_recording (s : Session) (u : Nat) :
    segsOf { s with is_recording := false } u = segsOf s u := rfl

theorem segsOfM_some {m : SessionManager} {g : Nat} {s : Session}
    (h : alistFind m.sessions g = some s) (u : Nat) :
    segsOfM m g u = segsOf s u := by
  rw [segsOfM, h]

theorem stop_recording_find (outcomes : Nat → Option String) (m : SessionManager) (g : Nat) :
    alistFind (SessionManager.stop_recording outcomes m g).2.sessions g
      = some (drainBuffers outcomes
          { (m.get_or_create_session g).1 with is_recording := false }
          ((m.get_or_create_session g).1.audio_buffers.map Prod.fst)) := by
  rw [stop_recording_eq]
  simp [alistFind_set]

/-- Claim C2: `stop_recording` sets the recording flag of the session to
false, synchronously flushes every speaker that has a buffer, and returns
the combined transcript of the resulting session; immediately afterwards
every speaker buffer of that session is empty, and every speaker whose
final flush succeeded has the stripped transcription appended as the last
segment of their transcript (hence reflected in the returned combined
transcript). -/
theorem c2_stop_recording_drains (m : SessionManager) (g : Nat)
    (outcomes : Nat → Option String)
    (hnd : ((m.get_or_create_session g).1.audio_buffers.map Prod.fst).Nodup) :
    ∃ s', alistFind (SessionManager.stop_recording outcomes m g).2.sessions g = some s'
      ∧ s'.is_recording = false
      ∧ (∀ u, bufGet s' u = [])
      ∧ (SessionManager.stop_recording outcomes m g).1 = s'.get_combined_transcript
      ∧ (∀ u t, outcomes u = some t → bufGet (m.get_or_create_session g).1 u ≠ [] →
          segsOf s' u = segsOf (m.get_or_create_session g).1 u ++ [pyStrip t]) := by
  refine ⟨drainBuffers outcomes
      { (m.get_or_create_session g).1 with is_recording := false }
      ((m.get_or_create_session g).1.audio_buffers.map Prod.fst),
    stop_recording_find outcomes m g, ?_, ?_, ?_, ?_⟩
  · rw [drainBuffers_is_recording]
  · intro u
    by_cases hmem : u ∈ (m.get_or_create_session g).1.audio_buffers.map Prod.fst
    · exact bufGet_drain_mem _ _ hmem
    · rw [bufGet_drain_not_mem _ _ hmem, bufGet_set_not_recording, bufGet,
        find_eq_none_of_not_mem hmem]
      rfl
  · rw [stop_recording_eq]
  · intro u t hout hbuf
    have hmem : u ∈ (m.get_or_create_session g).1.audio_buffers.map Prod.fst := by
      rw [bufGet] at hbuf
      cases hfind : alistFind (m.get_or_create_session g).1.audio_buffers u with
      | none => rw [hfind] at hbuf; simp at hbuf
      | some v => exact mem_keys_of_find hfind
    rw [segsOf_drain outcomes _ hnd u, bufGet_set_not_recording,
      if_pos ⟨hmem, hbuf⟩, hout, segsOf_set_not_recording]

/-- Witness for C2 on a concrete manager: guild 5 has user 1 with buffer
`[7]`, whose flush succeeds with raw text `" hello "`. -/
theorem c2_stop_recording_drains_witness :
    ((mgrA.get_or_create_session 5).1.audio_buffers.map Prod.fst).Nodup
    ∧ ∃ s', alistFind (SessionManager.stop_recording outcomesA mgrA 5).2.sessions 5 = some s'
      ∧ s'.is_recording = false
      ∧ (∀ u, bufGet s' u = [])
      ∧ (SessionManager.stop_recording outcomesA mgrA 5).1 = s'.get_combined_transcript
      ∧ (∀ u t, outcomesA u = some t → bufGet (mgrA.get_or_create_session 5).1 u ≠ [] →
          segsOf s' u = segsOf (mgrA.get_or_create_session 5).1 u ++ [pyStrip t]) :=
  ⟨by decide, c2_stop_recording_drains mgrA 5 outcomesA (by decide)⟩

/-- Claim C4: a conversion/transcription failure during one speaker's
flush is absorbed by the `except` handler and not propagated (the model of
`_flush_buffer` is total): the swapped-out bytes are discarded — the live
buffer stays the fresh empty one installed at swap time — and the
transcript mapping is untouched; and in `stop_recording` the effect on any
one speaker's transcript depends only on that speaker's own flush outcome,
so one speaker's failure prevents neither the other speakers' flushes nor
the combined transcript from being returned with the successful
segments. -/
theorem c4_flush_failure_isolated (s : Session) (u : Nat)
    (m : SessionManager) (g v : Nat) (o₁ o₂ : Nat → Option String)
    (hb : bufGet s u ≠ [])
    (hnd : ((m.get_or_create_session g).1.audio_buffers.map Prod.fst).Nodup)
    (ho : o₁ v = o₂ v) :
    ((flush_buffer none s u).user_transcripts = s.user_transcripts
      ∧ bufGet (flush_buffer none s u) u = [])
    ∧ segsOfM (SessionManager.stop_recording o₁ m g).2 g v
        = segsOfM (SessionManager.stop_recording o₂ m g).2 g v := by
  refine ⟨⟨flush_buffer_transcripts_none hb, bufGet_flush_self _ _ _⟩, ?_⟩
  rw [segsOfM_some (stop_recording_find o₁ m g) v,
    segsOfM_some (stop_recording_find o₂ m g) v,
    segsOf_drain o₁ _ hnd v, segsOf_drain o₂ _ hnd v, ho]

/-- Witness for C4: user 1's failing flush on `sessA`, and `stop_recording`
on `mgrA` under two outcome assignments that agree on user 1. -/
theorem c4_flush_failure_isolated_witness :
    (bufGet sessA 1 ≠ []
      ∧ ((mgrA.get_or_create_session 5).1.audio_buffers.map Prod.fst).Nodup
      ∧ outcomesA 1 = (fun _ => some " hello ") 1)
    ∧ ((flush_buffer none sessA 1).user_transcripts = sessA.user_transcripts
        ∧ bufGet (flush_buffer none sessA 1) 1 = [])
    ∧ segsOfM (SessionManager.stop_recording outcomesA mgrA 5).2 5 1
        = segsOfM (SessionManager.stop_recording (fun _ => some " hello ") mgrA 5).2 5 1 :=
  ⟨⟨by decide, by decide, by decide⟩,
   c4_flush_failure_isolated sessA 1 mgrA 5 1 outcomesA (fun _ => some " hello ")
     (by decide) (by decide) (by decide)⟩

/-- Claim C9: calling `stop_recording` for an id with no session — or
whose session has no transcript segments and only empty buffers — creates
(or keeps) the session with `is_recording = false`, performs no flush work
(the stored session is exactly the fetched-or-created one with the flag
cleared), and returns the empty string. -/
theorem c9_stop_empty (m : SessionManager) (g : Nat) (outcomes : Nat → Option String)
    (h : match alistFind m.sessions g with
         | none => True
         | some s => s.user_transcripts = [] ∧ ∀ p ∈ s.audio_buffers, p.2 = ([] : List Nat)) :
    (SessionManager.stop_recording outcomes m g).1 = ""
    ∧ alistFind (SessionManager.stop_recording outcomes m g).2.sessions g
        = some { (m.get_or_create_session g).1 with is_recording := false } := by
  have hT : (m.get_or_create_session g).1.user_transcripts = [] := by
    rw [goc_fst]
    cases hf : alistFind m.sessions g with
    | none => rfl
    | some s =>
      rw [hf] at h
      exact h.1
  have hB : ∀ p ∈ (m.get_or_create_session g).1.audio_buffers, p.2 = ([] : List Nat) := by
    rw [goc_fst]
    cases hf : alistFind m.sessions g with
    | none => intro p hp; simp [Session.init] at hp
    | some s =>
      rw [hf] at h
      exact h.2
  have hempty : ∀ u ∈ (m.get_or_create_session g).1.audio_buffers.map Prod.fst,
      bufGet { (m.get_or_create_session g).1 with is_recording := false } u = [] := by
    intro u hu
    rw [bufGet_set_not_recording, bufGet]
    cases hf : alistFind (m.get_or_create_session g).1.audio_buffers u with
    | none => rfl
    | some w =>
      rw [Option.getD_some]
      exact hB (u, w) (alistFind_mem hf)
  have hdrain : drainBuffers outcomes
      { (m.get_or_create_session g).1 with is_recording := false }
      ((m.get_or_create_session g).1.audio_buffers.map Prod.fst)
      = { (m.get_or_create_session g).1 with is_recording := false } :=
    drainBuffers_id outcomes _ hempty
  constructor
  · rw [stop_recording_eq]
    show (drainBuffers outcomes _ _).get_combined_transcript = ""
    rw [hdrain, Session.get_combined_transcript, Session.transcriptLines]
    have hTT : ({ (m.get_or_create_session g).1 with
        is_recording := false } : Session).user_transcripts = [] := hT
    rw [hTT]
    rfl
  · rw [stop_recording_find, hdrain]

/-- Witness for C9: stopping an absent session in the empty manager. -/
theorem c9_stop_empty_witness :
    (SessionManager.stop_recording outcomesA ⟨[]⟩ 0).1 = ""
    ∧ alistFind (SessionManager.stop_recording outcomesA ⟨[]⟩ 0).2.sessions 0
        = some { ((⟨[]⟩ : SessionManager).get_or_create_session 0).1 with
                 is_recording := false } :=
  c9_stop_empty ⟨[]⟩ 0 outcomesA True.intro

/-! ### C8: buffers exist only after an accepted ingest -/

theorem start_recording_find (m : SessionManager) (g g' : Nat) :
    alistFind (m.start_recording g).2.sessions g' =
      if g' = g then some { (m.get_or_create_session g).1 with is_recording := true }
      else alistFind m.sessions g' := by
  rw [SessionManager.start_recording]
  by_cases h : g' = g
  · simp [h, alistFind_set]
  · simp [h, alistFind_set, goc_find]

theorem stop_recording_find_ne (o : Nat → Option String) (m : SessionManager)
    {g g' : Nat} (h : g' ≠ g) :
    alistFind (SessionManager.stop_recording o m g).2.sessions g'
      = alistFind m.sessions g' := by
  rw [stop_recording_eq]
  simp [alistFind_set, h, goc_find]

theorem remove_session_find_self (m : SessionManager) (g : Nat)
    (hnd : (m.sessions.map Prod.fst).Nodup) :
    alistFind (m.remove_session g).sessions g = none := by
  rw [SessionManager.remove_session]
  cases hf : alistFind m.sessions g with
  | some s => simpa using alistErase_find_self hnd
  | none => simpa using hf

theorem remove_session_find_ne (m : SessionManager) {g g' : Nat} (h : g' ≠ g) :
    alistFind (m.remove_session g).sessions g' = alistFind m.sessions g' := by
  rw [SessionManager.remove_session]
  cases hf : alistFind m.sessions g with
  | some s => simpa using alistErase_find_ne _ h
  | none => rfl

theorem process_audio_chunk_eq (m : SessionManager) (g u : Nat) (pcm : List Nat) :
    m.process_audio_chunk g u pcm =
      if (m.get_or_create_session g).1.is_recording then
        ⟨alistSet (m.get_or_create_session g).2.sessions g
          ((m.get_or_create_session g).1.bufferChunk u pcm)⟩
      else (m.get_or_create_session g).2 := by
  rw [SessionManager.process_audio_chunk]
  cases h : (m.get_or_create_session g).1.is_recording <;> simp [h]

theorem bufferChunk_keys (s : Session) (u : Nat) (pcm : List Nat) {v : Nat}
    (h : v ∈ (s.bufferChunk u pcm).audio_buffers.map Prod.fst) :
    v ∈ s.audio_buffers.map Prod.fst ∨ v = u := by
  simp only [Session.bufferChunk] at h
  rw [alistSet_keys] at h
  by_cases hm : u ∈ s.audio_buffers.map Prod.fst
  · rw [if_pos hm] at h
    exact Or.inl h
  · rw [if_neg hm] at h
    rcases List.mem_append.mp h with h | h
    · exact Or.inl h
    · simp at h
      exact Or.inr h

theorem scheduledFlush_find (m : SessionManager) (g u : Nat) (o : Option String)
    (g' : Nat) :
    alistFind (m.scheduledFlush g u o).sessions g' = alistFind m.sessions g'
    ∨ (g' = g ∧ ∃ s, alistFind m.sessions g = some s
        ∧ alistFind (m.scheduledFlush g u o).sessions g' = some (flush_buffer o s u)) := by
  rw [SessionManager.scheduledFlush]
  cases hf : alistFind m.sessions g with
  | none => exact Or.inl rfl
  | some s =>
    by_cases hc : s.is_recording ∧ (alistFind s.audio_buffers u).getD [] ≠ []
    · by_cases hg : g' = g
      · subst hg
        right
        exact ⟨rfl, s, rfl, by simp [hc, alistFind_set]⟩
      · left
        simp [hc, alistFind_set, hg]
    · left
      simp [hc]

/-- Collapse "the fetched-or-created session has a buffer key" to "an
existing session has that buffer key" (the fresh session has none). -/
theorem justify_goc {m : SessionManager} {g u : Nat}
    (hkey : u ∈ (m.get_or_create_session g).1.audio_buffers.map Prod.fst) :
    ∃ s0, alistFind m.sessions g = some s0 ∧ u ∈ s0.audio_buffers.map Prod.fst := by
  rw [goc_fst] at hkey
  cases hf : alistFind m.sessions g with
  | some s0 =>
    rw [hf] at hkey
    exact ⟨s0, rfl, hkey⟩
  | none =>
    rw [hf] at hkey
    simp [Session.init] at hkey

theorem mStep_nodup {m : SessionManager} (e : MEvent)
    (h : (m.sessions.map Prod.fst).Nodup) :
    ((mStep m e).1.sessions.map Prod.fst).Nodup := by
  cases e with
  | startEv g =>
    simp only [mStep, SessionManager.start_recording]
    exact alistSet_keys_nodup _ (goc_keys_nodup g h)
  | stopEv g o =>
    simp only [mStep, stop_recording_eq]
    exact alistSet_keys_nodup _ (goc_keys_nodup g h)
  | ingestEv g u pcm =>
    simp only [mStep, process_audio_chunk_eq]
    by_cases hrec : (m.get_or_create_session g).1.is_recording = true
    · rw [if_pos hrec]
      exact alistSet_keys_nodup _ (goc_keys_nodup g h)
    · rw [if_neg hrec]
      exact goc_keys_nodup g h
  | nameEv g u n =>
    simp only [mStep, SessionManager.set_user_name]
    exact alistSet_keys_nodup _ (goc_keys_nodup g h)
  | removeEv g =>
    simp only [mStep, SessionManager.remove_session]
    split
    · exact alistErase_keys_nodup h
    · exact h
  | tickEv g u o =>
    simp only [mStep, SessionManager.scheduledFlush]
    split
    · exact h
    · split
      · exact alistSet_keys_nodup _ h
      · exact h

/-- One manager operation can put a buffer key into a session only by an
accepted ingest (which is logged); every other key was already present
before the operation. -/
theorem mStep_buffer_keys {m : SessionManager} (e : MEvent)
    (hnd : (m.sessions.map Prod.fst).Nodup) :
    ∀ g u s, alistFind ((mStep m e).1).sessions g = some s →
      u ∈ s.audio_buffers.map Prod.fst →
      (g, u) ∈ (mStep m e).2
      ∨ ∃ s0, alistFind m.sessions g = some s0 ∧ u ∈ s0.audio_buffers.map Prod.fst := by
  intro g u s hfind hkey
  cases e with
  | startEv g1 =>
    right
    simp only [mStep] at hfind
    rw [start_recording_find] at hfind
    by_cases hg : g = g1
    · rw [if_pos hg] at hfind
      subst hg
      have hs := Option.some.inj hfind
      apply justify_goc
      rw [← hs] at hkey
      exact hkey
    · rw [if_neg hg] at hfind
      exact ⟨s, hfind, hkey⟩
  | stopEv g1 o =>
    right
    simp only [mStep] at hfind
    by_cases hg : g = g1
    · subst hg
      rw [stop_recording_find] at hfind
      have hs := Option.some.inj hfind
      apply justify_goc
      have hk : (drainBuffers o
          { (m.get_or_create_session g).1 with is_recording := false }
          ((m.get_or_create_session g).1.audio_buffers.map Prod.fst)).audio_buffers.map
            Prod.fst
          = (m.get_or_create_session g).1.audio_buffers.map Prod.fst :=
        drainBuffers_keys o _ _
      rw [← hs, hk] at hkey
      exact hkey
    · rw [stop_recording_find_ne o m hg] at hfind
      exact ⟨s, hfind, hkey⟩
  | ingestEv g1 u1 pcm =>
    simp only [mStep] at hfind ⊢
    rw [process_audio_chunk_eq] at hfind
    by_cases hrec : (m.get_or_create_session g1).1.is_recording = true
    · rw [if_pos hrec] at hfind
      have hrec' : ((alistFind m.sessions g1).getD Session.init).is_recording = true := by
        rw [← goc_fst]
        exact hrec
      by_cases hg : g = g1
      · subst hg
        rw [show (SessionManager.mk (alistSet (m.get_or_create_session g).2.sessions g
              ((m.get_or_create_session g).1.bufferChunk u1 pcm))).sessions
            = alistSet (m.get_or_create_session g).2.sessions g
              ((m.get_or_create_session g).1.bufferChunk u1 pcm) from rfl,
          alistFind_set, if_pos rfl] at hfind
        have hs := Option.some.inj hfind
        rw [← hs] at hkey
        rcases bufferChunk_keys _ _ _ hkey with hk | hk
        · exact Or.inr (justify_goc hk)
        · subst hk
          left
          simp [hrec']
      · rw [show (SessionManager.mk (alistSet (m.get_or_create_session g1).2.sessions g1
              ((m.get_or_create_session g1).1.bufferChunk u1 pcm))).sessions
            = alistSet (m.get_or_create_session g1).2.sessions g1
              ((m.get_or_create_session g1).1.bufferChunk u1 pcm) from rfl,
          alistFind_set, if_neg hg, goc_find, if_neg hg] at hfind
        exact Or.inr ⟨s, hfind, hkey⟩
    · rw [if_neg hrec] at hfind
      rw [goc_find] at hfind
      by_cases hg : g = g1
      · rw [if_pos hg] at hfind
        subst hg
        have hs := Option.some.inj hfind
        right
        apply justify_goc
        rw [hs]
        exact hkey
      · rw [if_neg hg] at hfind
        exact Or.inr ⟨s, hfind, hkey⟩
  | nameEv g1 u1 n =>
    right
    simp only [mStep] at hfind
    rw [set_user_name_find] at hfind
    by_cases hg : g = g1
    · rw [if_pos hg] at hfind
      subst hg
      have hs := Option.some.inj hfind
      apply justify_goc
      rw [← hs] at hkey
      exact hkey
    · rw [if_neg hg] at hfind
      exact ⟨s, hfind, hkey⟩
  | removeEv g1 =>
    right
    simp only [mStep] at hfind
    by_cases hg : g = g1
    · subst hg
      rw [remove_session_find_self m g hnd] at hfind
      cases hfind
    · rw [remove_session_find_ne m hg] at hfind
      exact ⟨s, hfind, hkey⟩
  | tickEv g1 u1 o =>
    right
    simp only [mStep] at hfind
    rcases scheduledFlush_find m g1 u1 o g with heq | ⟨hg, s1, hf1, heq⟩
    · rw [heq] at hfind
      exact ⟨s, hfind, hkey⟩
    · subst hg
      rw [heq] at hfind
      have hs := Option.some.inj hfind
      rw [← hs, flush_buffer_keys] at hkey
      exact ⟨s1, hf1, hkey⟩

theorem mRun_cons (m : SessionManager) (e : MEvent) (tr : List MEvent) :
    mRun m (e :: tr) =
      ((mRun (mStep m e).1 tr).1, (mStep m e).2 ++ (mRun (mStep m e).1 tr).2) := rfl

theorem mRun_buffer_justified (tr : List MEvent) :
    ∀ m : SessionManager, (m.sessions.map Prod.fst).Nodup →
      ∀ g u s, alistFind (mRun m tr).1.sessions g = some s →
        u ∈ s.audio_buffers.map Prod.fst →
        (g, u) ∈ (mRun m tr).2
        ∨ ∃ s0, alistFind m.sessions g = some s0
            ∧ u ∈ s0.audio_buffers.map Prod.fst := by
  induction tr with
  | nil =>
    intro m _ g u s hfind hkey
    exact Or.inr ⟨s, hfind, hkey⟩
  | cons e tr ih =>
    intro m hnd g u s hfind hkey
    rw [mRun_cons] at hfind ⊢
    rcases ih (mStep m e).1 (mStep_nodup e hnd) g u s hfind hkey with hmem | ⟨s1, hf1, hk1⟩
    · exact Or.inl (List.mem_append.mpr (Or.inr hmem))
    · rcases mStep_buffer_keys e hnd g u s1 hf1 hk1 with hmem | hpre
      · exact Or.inl (List.mem_append.mpr (Or.inl hmem))
      · exact Or.inr hpre

/-- Claim C8: invariant preserved by every `SessionManager` operation
(`start_recording`, `stop_recording`, `process_audio_chunk`,
`set_user_name`, `remove_session`, and the scheduler's flush step): along
any trace of operations from the initial empty manager, a speaker id is a
key of a session's buffer mapping only if some `process_audio_chunk` call
for that guild and speaker was accepted while the session was recording —
buffers are created lazily, never by name-setting, starting, stopping, or
flushing alone. -/
theorem c8_buffers_lazy (tr : List MEvent) (g u : Nat) (s : Session)
    (hfind : alistFind (mRun ⟨[]⟩ tr).1.sessions g = some s)
    (hkey : u ∈ s.audio_buffers.map Prod.fst) :
    (g, u) ∈ (mRun ⟨[]⟩ tr).2 := by
  rcases mRun_buffer_justified tr ⟨[]⟩ (by simp) g u s hfind hkey with h | ⟨s0, hf, _⟩
  · exact h
  · rw [show alistFind (SessionManager.mk []).sessions g = none from rfl] at hf
    cases hf

/-- Witness for C8: starting, name-setting and one accepted ingest on
guild 3 create exactly the buffer key of the ingesting user, and the
accepted-ingest log records it. -/
theorem c8_buffers_lazy_witness :
    alistFind (mRun ⟨[]⟩ [MEvent.startEv 3, MEvent.nameEv 3 1 "Alice",
        MEvent.ingestEv 3 1 [5, 6]]).1.sessions 3
      = some { is_recording := true, user_transcripts := [],
               user_names := [(1, "Alice")], audio_buffers := [(1, [5, 6])] }
    ∧ 1 ∈ ({ is_recording := true, user_transcripts := [],
             user_names := [(1, "Alice")],
             audio_buffers := [(1, [5, 6])] } : Session).audio_buffers.map Prod.fst
    ∧ (3, 1) ∈ (mRun ⟨[]⟩ [MEvent.startEv 3, MEvent.nameEv 3 1 "Alice",
        MEvent.ingestEv 3 1 [5, 6]]).2 :=
  ⟨by decide, by decide,
   c8_buffers_lazy [MEvent.startEv 3, MEvent.nameEv 3 1 "Alice", MEvent.ingestEv 3 1 [5, 6]]
     3 1
     { is_recording := true, user_transcripts := [], user_names := [(1, "Alice")],
       audio_buffers := [(1, [5, 6])] }
     (by decide) (by decide)⟩
